import Mathlib

/-!
Shallow embedding of the tinypdf library (src: the single TypeScript module
exporting `measureText`, `parseColor`, `parseJpeg`, `pdfString`, `serialize`,
`pdf()` with its `page`/`build` operations, and `markdown` with its `wrap`
and pagination loops).

Conventions of the embedding:
* JavaScript numbers are modelled as `ℚ` (exact rationals); byte values,
  object ids and byte offsets are `ℕ`.  `Uint8Array` is `List ℕ` with the
  invariant (guaranteed by the `Uint8Array` type in the source) that every
  entry is `< 256`.
* Strings are Lean `String`s; `TextEncoder().encode` is modelled by an
  explicit UTF-8 encoder `utf8Str`.
* Mutable builder state is threaded explicitly through a `DocState`.
* Code that can `throw` returns an `Except Err _` together with the state
  at the moment of the throw (JS exceptions leave prior mutations in place).
* JS fractional-number printing (`toFixed`) is reproduced over `ℚ` with
  round-half-away-from-zero; the IEEE-754 rounding of the original is out
  of scope of the rational model.
-/

namespace TinyPDF

/-- Helvetica widths, ASCII 32-126, units per 1000 (the `WIDTHS` table). -/
def WIDTHS : List ℕ := [
  278, 278, 355, 556, 556, 889, 667, 191, 333, 333, 389, 584, 278, 333, 278, 278,
  556, 556, 556, 556, 556, 556, 556, 556, 556, 556, 278, 278, 584, 584, 584, 556,
  1015, 667, 667, 722, 722, 667, 611, 778, 722, 278, 500, 667, 556, 833, 722, 778,
  667, 778, 722, 667, 611, 722, 667, 944, 667, 667, 611, 278, 278, 278, 469, 556,
  333, 556, 556, 500, 556, 556, 278, 556, 556, 222, 222, 500, 222, 833, 556, 556,
  556, 556, 333, 500, 278, 556, 500, 722, 500, 500, 500, 334, 260, 334, 584]

/-- Width of one character: table entry for printable ASCII, 556 otherwise
(the body of the loop in `measureText`). -/
def charWidth (c : Char) : ℕ :=
  if 32 ≤ c.toNat ∧ c.toNat ≤ 126 then WIDTHS.getD (c.toNat - 32) 0 else 556

/-- `measureText` on a character list: sum of advance widths, scaled by
`size / 1000`. -/
def measureChars (cs : List Char) (size : ℚ) : ℚ :=
  ((cs.map charWidth).sum : ℕ) * size / 1000

/-- `measureText(str, size)`. -/
def measureText (s : String) (size : ℚ) : ℚ :=
  measureChars s.data size

/-- Hex digit value, or `none`. -/
def hexVal (c : Char) : Option ℕ :=
  if '0' ≤ c ∧ c ≤ '9' then some (c.toNat - '0'.toNat)
  else if 'a' ≤ c ∧ c ≤ 'f' then some (c.toNat - 'a'.toNat + 10)
  else if 'A' ≤ c ∧ c ≤ 'F' then some (c.toNat - 'A'.toNat + 10)
  else none

/-- Two hex digits as a byte value (the `parseInt(hex.slice(..), 16)` calls,
which in `parseColor` only run on strings already validated as hex). -/
def hexByte (a b : Char) : ℕ :=
  (hexVal a).getD 0 * 16 + (hexVal b).getD 0

/-- `parseColor(hex)`: strips an optional leading `#`, expands 3-digit
shorthand, then requires exactly 6 hex digits; channels are divided by 255.
`undefined`, the empty string and `'none'` yield no paint. -/
def parseColor (hex : Option String) : Option (ℚ × ℚ × ℚ) :=
  match hex with
  | none => none
  | some h =>
    if h = "" ∨ h = "none" then none
    else
      let cs := if h.data.head? = some '#' then h.data.tail else h.data
      let cs := match cs with
        | [a, b, c] => [a, a, b, b, c, c]
        | _ => cs
      match cs with
      | [a, b, c, d, e, f] =>
        if (hexVal a).isSome ∧ (hexVal b).isSome ∧ (hexVal c).isSome ∧
           (hexVal d).isSome ∧ (hexVal e).isSome ∧ (hexVal f).isSome then
          some ((hexByte a b : ℚ) / 255, (hexByte c d : ℚ) / 255, (hexByte e f : ℚ) / 255)
        else none
      | _ => none

/-- Digits of a natural number, padded on the left with `'0'` to `width`. -/
def natDigitsPadded (width n : ℕ) : List Char :=
  let s := (toString n).data
  List.replicate (width - s.length) '0' ++ s

/-- `q.toFixed(dec)` over `ℚ`: fixed-point rendering with `dec` decimals,
rounding half away from zero. -/
def qToFixed (dec : ℕ) (q : ℚ) : String :=
  let scale : ℚ := (10 : ℚ) ^ dec
  let n : ℤ := if 0 ≤ q then ⌊q * scale + 1/2⌋ else -⌊(-q) * scale + 1/2⌋
  let sign := if n < 0 then "-" else ""
  let m := n.natAbs
  if dec = 0 then sign ++ toString (m)
  else sign ++ toString (m / 10 ^ dec) ++ "." ++ String.mk (natDigitsPadded dec (m % 10 ^ dec))

/-- `colorOp(rgb, op)`: empty string when there is no paint. -/
def colorOp (rgb : Option (ℚ × ℚ × ℚ)) (op : String) : String :=
  match rgb with
  | some (r, g, b) =>
      qToFixed 3 r ++ " " ++ qToFixed 3 g ++ " " ++ qToFixed 3 b ++ " " ++ op
  | none => ""

/-- Strip `/\.?0+$/` from a `toFixed` result: drop trailing zeros, and the
decimal point too when the whole fraction was zeros. -/
def stripTrailingZeros (s : String) : String :=
  let r := s.data.reverse
  if r.head? = some '0' then
    let r := r.dropWhile (· = '0')
    let r := if r.head? = some '.' then r.tail else r
    String.mk r.reverse
  else s

/-- JS number printing as used by `serialize`: integers print exactly,
fractional values print via `toFixed(4)` with trailing zeros stripped. -/
def numToString (q : ℚ) : String :=
  if q.den = 1 then toString q.num else stripTrailingZeros (qToFixed 4 q)

/-- Replace every occurrence of character `t` by the character list `r`
(one `.replace(/t/g, r)` step of `pdfString`). -/
def replChar (t : Char) (r : List Char) (cs : List Char) : List Char :=
  match cs with
  | [] => []
  | c :: rest => (if c = t then r else [c]) ++ replChar t r rest

/-- `pdfString(str)`: wrap in parentheses after the five chained global
replacements (backslash first, then the parentheses, CR and LF). -/
def pdfString (s : String) : String :=
  let cs := s.data
  let cs := replChar '\\' ['\\', '\\'] cs
  let cs := replChar '(' ['\\', '('] cs
  let cs := replChar ')' ['\\', ')'] cs
  let cs := replChar '\r' ['\\', 'r'] cs
  let cs := replChar '\n' ['\\', 'n'] cs
  "(" ++ String.mk cs ++ ")"

/-- The `PDFValue` sum type.  `undefined` dictionary entries are `none`
in the entry list; `Ref` is the `ref` constructor. -/
inductive PDFValue : Type where
  | null : PDFValue
  | bool (b : Bool) : PDFValue
  | num (q : ℚ) : PDFValue
  | str (s : String) : PDFValue
  | arr (elems : List PDFValue) : PDFValue
  | ref (id : ℕ) : PDFValue
  | dict (entries : List (String × Option PDFValue)) : PDFValue
deriving Inhabited

mutual

/-- `serialize(val)`: the single exhaustive match of the Value Serializer.
Strings beginning with `/` (names) and `(` (pre-escaped strings) pass
through verbatim; other strings go through `pdfString`. -/
def serialize : PDFValue → String
  | .null => "null"
  | .bool b => if b then "true" else "false"
  | .num q => numToString q
  | .str s =>
      if s.data.head? = some '/' then s
      else if s.data.head? = some '(' then s
      else pdfString s
  | .arr xs => "[" ++ serializeList xs ++ "]"
  | .ref id => toString id ++ " 0 R"
  | .dict entries => "<<\n" ++ serializeEntries entries ++ "\n>>"

/-- `val.map(serialize).join(' ')` for arrays. -/
def serializeList : List PDFValue → String
  | [] => ""
  | [x] => serialize x
  | x :: rest => serialize x ++ " " ++ serializeList rest

/-- `Object.entries(val).filter(...).map(...).join('\n')` for dictionaries:
entries with an absent value are omitted. -/
def serializeEntries : List (String × Option PDFValue) → String
  | [] => ""
  | (_, none) :: rest => serializeEntries rest
  | (k, some v) :: rest =>
      let s := "/" ++ k ++ " " ++ serialize v
      let r := serializeEntries rest
      if r = "" then s else s ++ "\n" ++ r

end

/-- The error kinds of the library (spec §7): `NoPages` and `AlreadyBuilt`
are the two `build()` throws, `MalformedImage` the two `parseJpeg` throws. -/
inductive Err : Type where
  | noPages : Err
  | alreadyBuilt : Err
  | malformedImage : Err
deriving DecidableEq

/-- Result of `parseJpeg`. -/
structure JpegInfo : Type where
  width : ℕ
  height : ℕ
  colorSpace : String
deriving DecidableEq

/-- Component-count byte to color-space name: `1 → '/DeviceGray'`,
`4 → '/DeviceCMYK'`, anything else `'/DeviceRGB'`. -/
def colorFor (c : ℕ) : String :=
  if c = 1 then "/DeviceGray" else if c = 4 then "/DeviceCMYK" else "/DeviceRGB"

/-- Big-endian 16-bit value `(hi << 8) | lo` of two byte values. -/
def be16 (hi lo : ℕ) : ℕ := hi * 256 + lo

/-- `bytes[i]`: reading a `Uint8Array` index (in JS out-of-range indices
yield `undefined`; `parseJpeg` only reads indices it has bounds-checked,
so the default is never observable). -/
def byteAt (bytes : List ℕ) (i : ℕ) : ℕ := bytes.getD i 0

/-- The marker-scanning loop of `parseJpeg`, from position `i`:
skip non-`FF` bytes; stop (failing) at SOS `DA`; at SOF `C0`/`C2` with the
fixed payload offsets in bounds and nonzero dimensions return the parsed
header; otherwise skip the marker via its big-endian length field. -/
def scanSOF (bytes : List ℕ) (i : ℕ) : Option JpegInfo :=
  if hlt : i < bytes.length - 1 then
    if byteAt bytes i = 0xFF then
      let marker := byteAt bytes (i+1)
      if marker = 0xDA then none
      else if marker = 0xC0 ∨ marker = 0xC2 then
        if bytes.length ≤ i + 9 then none
        else
          let height := be16 (byteAt bytes (i+5)) (byteAt bytes (i+6))
          let width := be16 (byteAt bytes (i+7)) (byteAt bytes (i+8))
          if width ≠ 0 ∧ height ≠ 0 then
            some ⟨width, height, colorFor (byteAt bytes (i+9))⟩
          else
            if bytes.length ≤ i + 3 then none
            else scanSOF bytes (i + 2 + be16 (byteAt bytes (i+2)) (byteAt bytes (i+3)))
      else
        if bytes.length ≤ i + 3 then none
        else scanSOF bytes (i + 2 + be16 (byteAt bytes (i+2)) (byteAt bytes (i+3)))
    else scanSOF bytes (i + 1)
  else none
termination_by bytes.length - i
decreasing_by
  · omega
  · omega
  · omega

/-- `parseJpeg(bytes)`: SOI check, then the scan from position 2; every
failure is the single `MalformedImage` error kind. -/
def parseJpeg (bytes : List ℕ) : Except Err JpegInfo :=
  if bytes.length < 2 ∨ byteAt bytes 0 ≠ 0xFF ∨ byteAt bytes 1 ≠ 0xD8 then
    .error .malformedImage
  else
    match scanSOF bytes 2 with
    | some info => .ok info
    | none => .error .malformedImage

/-- UTF-8 encoding of one character (what `TextEncoder().encode` does per
code point). -/
def utf8Char (c : Char) : List ℕ :=
  let n := c.toNat
  if n < 0x80 then [n]
  else if n < 0x800 then [0xC0 + n / 64, 0x80 + n % 64]
  else if n < 0x10000 then [0xE0 + n / 4096, 0x80 + n / 64 % 64, 0x80 + n % 64]
  else [0xF0 + n / 262144, 0x80 + n / 4096 % 64, 0x80 + n / 64 % 64, 0x80 + n % 64]

/-- Flat map over a list (used to state the encoders as single passes). -/
def flatMapL (f : α → List β) : List α → List β
  | [] => []
  | a :: as => f a ++ flatMapL f as

/-- `TextEncoder().encode(s)` as a byte list. -/
def utf8Str (s : String) : List ℕ :=
  flatMapL utf8Char s.data

/-- One entry of the `objects` array: id, dictionary, optional stream. -/
structure PDFObjectM : Type where
  id : ℕ
  dict : PDFValue
  stream : Option (List ℕ)
deriving Inhabited

/-- The builder's mutable state: `objects`, `pages` (ids of the page
objects referenced by `Ref`s), the `nextId` counter and the `built` flag. -/
structure DocState : Type where
  objects : List PDFObjectM
  pages : List ℕ
  nextId : ℕ
  built : Bool

/-- `pdf()`: the fresh builder state. -/
def emptyDoc : DocState := ⟨[], [], 1, false⟩

/-- `addObject(dict, streamBytes)`: assigns `nextId`, appends, returns the
new reference's id. -/
def addObject (st : DocState) (dict : PDFValue) (stream : Option (List ℕ)) :
    ℕ × DocState :=
  (st.nextId,
   { st with objects := st.objects ++ [⟨st.nextId, dict, stream⟩],
             nextId := st.nextId + 1 })

/-- `TextOptions.align`. -/
inductive Align : Type where
  | left : Align
  | center : Align
  | right : Align
deriving DecidableEq

/-- One drawing call performed by a page callback; the callback itself is
modelled as the list of the calls it makes on its `PageContext`. -/
inductive DrawCmd : Type where
  | text (str : String) (x y size : ℚ) (align : Align) (boxWidth : Option ℚ)
      (color : Option String) : DrawCmd
  | rect (x y w h : ℚ) (fill : String) : DrawCmd
  | line (x1 y1 x2 y2 : ℚ) (stroke : String) (lineWidth : ℚ) : DrawCmd
  | image (bytes : List ℕ) (x y w h : ℚ) : DrawCmd
  | link (url : String) (x y w h : ℚ) (underline : Option String) : DrawCmd

/-- The page-local accumulators (`ops`, `images`, `links`, `imageCount`)
together with the document state mutated by `addObject` calls from
`ctx.image`. -/
structure PageFold : Type where
  ops : List String
  images : List (String × ℕ)
  links : List (String × List ℚ)
  imageCount : ℕ
  st : DocState

/-- Dictionary of an image XObject allocated by `ctx.image`. -/
def imgDict (info : JpegInfo) (bytes : List ℕ) : PDFValue :=
  .dict [("Type", some (.str "/XObject")), ("Subtype", some (.str "/Image")),
         ("Width", some (.num info.width)), ("Height", some (.num info.height)),
         ("ColorSpace", some (.str info.colorSpace)),
         ("BitsPerComponent", some (.num 8)),
         ("Filter", some (.str "/DCTDecode")),
         ("Length", some (.num bytes.length))]

/-- One `PageContext` method call.  Returns the updated accumulators and
`none`, or — for a malformed image — the accumulators at the moment of the
throw and the error. -/
def runCmd (pf : PageFold) : DrawCmd → PageFold × Option Err
  | .text str x y size align boxWidth color =>
      let tx := match boxWidth with
        | some bw =>
            match align with
            | .left => x
            | .center => x + (bw - measureText str size) / 2
            | .right => x + bw - measureText str size
        | none => x
      let c0 := colorOp (parseColor (some (color.getD "#000000"))) "rg"
      let c := if c0 = "" then "0.000 0.000 0.000 rg" else c0
      ({ pf with ops := pf.ops ++
          [c, "BT", "/F1 " ++ numToString size ++ " Tf",
           qToFixed 2 tx ++ " " ++ qToFixed 2 y ++ " Td",
           pdfString str ++ " Tj", "ET"] }, none)
  | .rect x y w h fill =>
      let c := colorOp (parseColor (some fill)) "rg"
      if c = "" then (pf, none)
      else ({ pf with ops := pf.ops ++
          [c, qToFixed 2 x ++ " " ++ qToFixed 2 y ++ " " ++ qToFixed 2 w ++ " " ++
           qToFixed 2 h ++ " re", "f"] }, none)
  | .line x1 y1 x2 y2 stroke lineWidth =>
      let c := colorOp (parseColor (some stroke)) "RG"
      if c = "" then (pf, none)
      else ({ pf with ops := pf.ops ++
          [qToFixed 2 lineWidth ++ " w", c,
           qToFixed 2 x1 ++ " " ++ qToFixed 2 y1 ++ " m",
           qToFixed 2 x2 ++ " " ++ qToFixed 2 y2 ++ " l", "S"] }, none)
  | .image bytes x y w h =>
      match parseJpeg bytes with
      | .error e => (pf, some e)
      | .ok info =>
          let imgName := "/Im" ++ toString pf.imageCount
          let (refId, st') := addObject pf.st (imgDict info bytes) (some bytes)
          ({ pf with
              st := st',
              images := pf.images ++ [(imgName, refId)],
              imageCount := pf.imageCount + 1,
              ops := pf.ops ++
                ["q", qToFixed 2 w ++ " 0 0 " ++ qToFixed 2 h ++ " " ++
                 qToFixed 2 x ++ " " ++ qToFixed 2 y ++ " cm",
                 imgName ++ " Do", "Q"] }, none)
  | .link url x y w h underline =>
      let pf := { pf with links := pf.links ++ [(url, [x, y, x + w, y + h])] }
      match underline with
      | none => (pf, none)
      | some u =>
          let c := colorOp (parseColor (some u)) "RG"
          if c = "" then (pf, none)
          else ({ pf with ops := pf.ops ++
              ["0.75 w", c,
               qToFixed 2 x ++ " " ++ qToFixed 2 (y + 2) ++ " m",
               qToFixed 2 (x + w) ++ " " ++ qToFixed 2 (y + 2) ++ " l", "S"] }, none)

/-- Run the drawing callback: execute each call in order, stopping at the
first throw (whose mutations up to that point are kept). -/
def runCmds : List DrawCmd → PageFold → PageFold × Option Err
  | [], pf => (pf, none)
  | cmd :: rest, pf =>
      match runCmd pf cmd with
      | (pf', none) => runCmds rest pf'
      | (pf', some e) => (pf', some e)

/-- Dictionary of a link annotation object. -/
def annotDict (lnk : String × List ℚ) : PDFValue :=
  .dict [("Type", some (.str "/Annot")), ("Subtype", some (.str "/Link")),
         ("Rect", some (.arr (lnk.2.map .num))),
         ("Border", some (.arr [.num 0, .num 0, .num 0])),
         ("A", some (.dict [("Type", some (.str "/Action")),
                            ("S", some (.str "/URI")),
                            ("URI", some (.str lnk.1))]))]

/-- Allocate one annotation object per recorded link, in order. -/
def addAnnots (st : DocState) : List (String × List ℚ) → List ℕ × DocState
  | [] => ([], st)
  | lnk :: rest =>
      let (id, st') := addObject st (annotDict lnk) none
      let (ids, st'') := addAnnots st' rest
      (id :: ids, st'')

/-- The page object's dictionary (`Parent` is `null` until `build`,
`F1` is `null` until `build`; `XObject` and `Annots` are omitted when
empty, mirroring the `undefined`-valued entries). -/
def pageDict (width height : ℚ) (contentId : ℕ) (xobjects : List (String × ℕ))
    (annots : List ℕ) : PDFValue :=
  .dict [("Type", some (.str "/Page")), ("Parent", some .null),
         ("MediaBox", some (.arr [.num 0, .num 0, .num width, .num height])),
         ("Contents", some (.ref contentId)),
         ("Resources", some (.dict
            [("Font", some (.dict [("F1", some .null)])),
             ("XObject", if xobjects ≠ [] then
                 some (.dict (xobjects.map fun p => (p.1.drop 1, some (.ref p.2))))
               else none)])),
         ("Annots", if annots ≠ [] then some (.arr (annots.map .ref)) else none)]

/-- The tail of `page(...)` after the callback returns: allocate the
content stream, the annotation objects and the page object, and append
the page reference. -/
def assemblePage (wh : ℚ × ℚ) (pf : PageFold) : DocState :=
  let content := String.intercalate "\n" pf.ops
  let contentBytes := utf8Str content
  let (contentId, st1) :=
    addObject pf.st (.dict [("Length", some (.num contentBytes.length))])
      (some contentBytes)
  let (annots, st2) := addAnnots st1 pf.links
  let (pageId, st3) :=
    addObject st2 (pageDict wh.1 wh.2 contentId pf.images annots) none
  { st3 with pages := st3.pages ++ [pageId] }

/-- `page(widthOrFn, heightOrUndefined, fnOrUndefined)`: `dims = none`
models the one-argument overload, which uses US Letter 612x792.  Returns
the call's outcome and the state after the call (on a throw, the state at
the throw). -/
def pageCall (st : DocState) (dims : Option (ℚ × ℚ)) (cmds : List DrawCmd) :
    Except Err Unit × DocState :=
  let wh := match dims with
    | none => ((612 : ℚ), (792 : ℚ))
    | some p => p
  match runCmds cmds ⟨[], [], [], 0, st⟩ with
  | (pf, some e) => (.error e, pf.st)
  | (pf, none) => (.ok (), assemblePage wh pf)

/-- Dictionary value lookup, treating a missing key and an
`undefined`-valued key alike (JS property access). -/
def lookupD (entries : List (String × Option PDFValue)) (k : String) :
    Option PDFValue :=
  match entries with
  | [] => none
  | (k', v) :: rest => if k' = k then (match v with | some x => some x | none => none)
                       else lookupD rest k

/-- JS property assignment `obj[k] = v`: overwrite an existing key in
place, else append the key. -/
def setKey (entries : List (String × Option PDFValue)) (k : String)
    (v : PDFValue) : List (String × Option PDFValue) :=
  if entries.any (fun e => e.1 = k) then
    entries.map (fun e => if e.1 = k then (e.1, some v) else e)
  else entries ++ [(k, some v)]

/-- The backfill walk of `build()`: on every object whose `Type` is
`'/Page'`, point `Parent` at the pages tree and `Resources.Font.F1` at the
font object. -/
def backfillObj (fontId pagesId : ℕ) (o : PDFObjectM) : PDFObjectM :=
  match o.dict with
  | .dict entries =>
      if (match lookupD entries "Type" with
          | some (.str t) => t == "/Page"
          | _ => false : Bool) then
        let entries := setKey entries "Parent" (.ref pagesId)
        let entries :=
          match lookupD entries "Resources" with
          | some (.dict rents) =>
              match lookupD rents "Font" with
              | some (.dict fents) =>
                  setKey entries "Resources"
                    (.dict (setKey rents "Font" (.dict (setKey fents "F1" (.ref fontId)))))
              | _ => entries
          | _ => entries
        { o with dict := .dict entries }
      else o
  | _ => o

/-- The shared font object's dictionary. -/
def fontDict : PDFValue :=
  .dict [("Type", some (.str "/Font")), ("Subtype", some (.str "/Type1")),
         ("BaseFont", some (.str "/Helvetica"))]

/-- The pages-tree object's dictionary. -/
def pagesDict (pageIds : List ℕ) : PDFValue :=
  .dict [("Type", some (.str "/Pages")),
         ("Kids", some (.arr (pageIds.map .ref))),
         ("Count", some (.num pageIds.length))]

/-- The catalog object's dictionary. -/
def catalogDict (pagesId : ℕ) : PDFValue :=
  .dict [("Type", some (.str "/Catalog")), ("Pages", some (.ref pagesId))]

/-- The fixed file header `'%PDF-1.4\n%\xFF\xFF\xFF\xFF\n'`. -/
def pdfHeader : String := "%PDF-1.4\n%\xFF\xFF\xFF\xFF\n"

/-- Bytes of one `<id> 0 obj ...` block, streams wrapped in the literal
`stream`/`endstream` markers. -/
def objChunk (o : PDFObjectM) : List ℕ :=
  match o.stream with
  | some stBytes =>
      utf8Str (toString o.id ++ " 0 obj\n" ++ serialize o.dict ++ "\n" ++ "stream\n")
        ++ stBytes ++ utf8Str "\nendstream\nendobj\n"
  | none =>
      utf8Str (toString o.id ++ " 0 obj\n" ++ serialize o.dict ++ "\n" ++ "endobj\n")

/-- The object-emission loop of `build()`: starting at byte offset `off`,
emit each object's bytes while recording `(id, offset)` pairs; also return
the cumulative offset after the last object (the loop's `byteOffset`). -/
def emitObjs : List PDFObjectM → ℕ → List ℕ × (List (ℕ × ℕ) × ℕ)
  | [], off => ([], ([], off))
  | o :: rest, off =>
      let ch := objChunk o
      let (bs, rec') := emitObjs rest (off + ch.length)
      (ch ++ bs, ((o.id, off) :: rec'.1, rec'.2))

/-- `String(offsets[i])`: the recorded offset of object id `i`, printed;
a missing entry prints as JS `undefined` (unreachable for the builder's
dense ids). -/
def lookupOffStr (om : List (ℕ × ℕ)) (i : ℕ) : String :=
  match om.lookup i with
  | some off => toString off
  | none => "undefined"

/-- `padStart(10, '0')`. -/
def pad10 (s : String) : String :=
  String.mk (List.replicate (10 - s.length) '0') ++ s

/-- The xref lines for ids `1..n`, from the recorded offsets. -/
def xrefEntries (n : ℕ) (om : List (ℕ × ℕ)) : List String :=
  (List.range n).map fun j => pad10 (lookupOffStr om (j + 1)) ++ " 00000 n \n"

/-- The complete `xref` section text: header line, the reserved free-list
head entry 0, then one line per object id. -/
def xrefString (n : ℕ) (om : List (ℕ × ℕ)) : String :=
  "xref\n0 " ++ toString (n + 1) ++ "\n" ++ "0000000000 65535 f \n" ++
    String.join (xrefEntries n om)

/-- The trailer dictionary. -/
def trailerDict (n catalogId : ℕ) : PDFValue :=
  .dict [("Size", some (.num (n + 1))), ("Root", some (.ref catalogId))]

/-- The byte-emission phase of `build()` (lines after the catalog is
allocated): header, objects, xref section, trailer, startxref, EOF. -/
def buildBytes (objs : List PDFObjectM) (catalogId : ℕ) : List ℕ :=
  let hb := utf8Str pdfHeader
  let (objBytes, omRec) := emitObjs objs hb.length
  hb ++ objBytes
    ++ utf8Str (xrefString objs.length omRec.1)
    ++ utf8Str ("trailer\n" ++ serialize (trailerDict objs.length catalogId) ++ "\n")
    ++ utf8Str ("startxref\n" ++ toString omRec.2 ++ "\n%%EOF\n")

/-- `build()`: the `NoPages` then `AlreadyBuilt` guards, the one-shot
`built` transition, allocation of font, pages tree and catalog, the
backfill walk, and serialization.  Returns the outcome together with the
post-call state (unchanged on either throw). -/
def build (st : DocState) : Except Err (List ℕ) × DocState :=
  if st.pages = [] then (.error .noPages, st)
  else if st.built then (.error .alreadyBuilt, st)
  else
    let st0 := { st with built := true }
    let (fontId, st1) := addObject st0 fontDict none
    let (pagesId, st2) := addObject st1 (pagesDict st.pages) none
    let st3 := { st2 with objects := st2.objects.map (backfillObj fontId pagesId) }
    let (catalogId, st4) := addObject st3 (catalogDict pagesId) none
    (.ok (buildBytes st4.objects catalogId), st4)

/-- `text.split(' ')` (single-character separator; adjacent separators and
edge separators produce empty words, and the empty string yields one empty
word). -/
def splitWords : List Char → List (List Char)
  | [] => [[]]
  | c :: cs =>
      match splitWords cs with
      | [] => [[c]]
      | w :: ws => if c = ' ' then [] :: w :: ws else (c :: w) :: ws

/-- The inner character loop of `wrap` for an over-wide word: before
appending each character, flush the chunk if it is nonempty and would
overflow.  State is `(lines, chunk)`. -/
def chunkStep (size maxW : ℚ) (acc : List (List Char) × List Char) (ch : Char) :
    List (List Char) × List Char :=
  if measureChars (acc.2 ++ [ch]) size > maxW ∧ acc.2 ≠ [] then
    (acc.1 ++ [acc.2], [ch])
  else (acc.1, acc.2 ++ [ch])

/-- The per-word step of `wrap`'s greedy fill.  State is `(lines, line)`. -/
def wordStep (size maxW : ℚ) (acc : List (List Char) × List Char)
    (word : List Char) : List (List Char) × List Char :=
  if measureChars word size > maxW then
    let lines1 := if acc.2 ≠ [] then acc.1 ++ [acc.2] else acc.1
    word.foldl (chunkStep size maxW) (lines1, [])
  else
    let test := if acc.2 ≠ [] then acc.2 ++ ' ' :: word else word
    if measureChars test size ≤ maxW then (acc.1, test)
    else if acc.2 ≠ [] then (acc.1 ++ [acc.2], word) else (acc.1, word)

/-- `wrap(text, size, maxW)` from `markdown`: greedy line fill with
character-level fallback for over-wide words; never returns an empty list. -/
def wrap (text : List Char) (size maxW : ℚ) : List (List Char) :=
  let acc := (splitWords text).foldl (wordStep size maxW) ([], [])
  let lines := if acc.2 ≠ [] then acc.1 ++ [acc.2] else acc.1
  if lines ≠ [] then lines else [[]]

/-- One layout item of `markdown` (text run or horizontal rule). -/
structure MDItem : Type where
  text : List Char
  size : ℚ
  indent : ℚ
  spaceBefore : ℚ
  spaceAfter : ℚ
  rule : Bool
  color : Option String
deriving DecidableEq

/-- Vertical units consumed by one item. -/
def needed (it : MDItem) : ℚ := it.spaceBefore + it.size + it.spaceAfter

/-- State of the pagination loop: finished pages (items with their
baseline `y`s), the cursor `y`, and the current page's accumulators. -/
structure PageAcc : Type where
  pages : List (List MDItem × List ℚ)
  y : ℚ
  pg : List MDItem
  ys : List ℚ
deriving DecidableEq

/-- One iteration of the pagination loop: close the current collection
when the cursor would cross the bottom margin, then place the item. -/
def pagStep (H M : ℚ) (acc : PageAcc) (item : MDItem) : PageAcc :=
  let acc :=
    if acc.y - needed item < M then
      { pages := if acc.pg ≠ [] then acc.pages ++ [(acc.pg, acc.ys)] else acc.pages,
        y := H - M, pg := [], ys := [] }
    else acc
  let y1 := acc.y - item.spaceBefore
  { pages := acc.pages,
    y := y1 - (item.size + item.spaceAfter),
    pg := acc.pg ++ [item],
    ys := acc.ys ++ [y1] }

/-- The pagination loop of `markdown`: fold the items, flush the final
collection, and fall back to a single empty page. -/
def paginate (H M : ℚ) (items : List MDItem) : List (List MDItem × List ℚ) :=
  let a := items.foldl (pagStep H M) ⟨[], H - M, [], []⟩
  let pages := if a.pg ≠ [] then a.pages ++ [(a.pg, a.ys)] else a.pages
  if pages ≠ [] then pages else [([], [])]

/-! ### Derived notions used by the statements -/

/-- Key lookup on a dictionary value (none on non-dictionaries). -/
def dictLookup (v : PDFValue) (k : String) : Option PDFValue :=
  match v with
  | .dict entries => lookupD entries k
  | _ => none

/-- The single-pass escape map that `pdfString`'s chain of replacements
amounts to: the five special characters escaped, everything else passed
through. -/
def escSpec (c : Char) : List Char :=
  if c = '\\' then ['\\', '\\']
  else if c = '(' then ['\\', '(']
  else if c = ')' then ['\\', ')']
  else if c = '\r' then ['\\', 'r']
  else if c = '\n' then ['\\', 'n']
  else [c]

/-- `true` on a successful build result. -/
def isOkE (r : Except Err α) : Bool :=
  match r with
  | .ok _ => true
  | .error _ => false

/-- A line `wrap` may legitimately return: within budget, or a single
(unavoidably over-wide) character. -/
def allowedLine (size maxW : ℚ) (l : List Char) : Prop :=
  measureChars l size ≤ maxW ∨ l.length = 1

/-- Placing any item of a page after the first keeps the cursor at or
above the bottom margin `M` (only a page's first — triggering — item may
overflow). -/
def pagePrefixOk (H M : ℚ) (p : List MDItem) : Prop :=
  ∀ j, 2 ≤ j → j ≤ p.length → M ≤ H - M - ((p.take j).map needed).sum

/-- Byte offset at which object number `k` (0-based) of the emission loop
starts: the header plus the preceding objects' chunks. -/
def objOffset (objs : List PDFObjectM) (k : ℕ) : ℕ :=
  (utf8Str pdfHeader).length + (((objs.take k).map fun o => (objChunk o).length).sum)

/-- Byte offset of the xref section: right after the last object. -/
def xrefOffset (objs : List PDFObjectM) : ℕ :=
  objOffset objs objs.length

/-- The scan-failure conditions of `parseJpeg`'s loop, enumerated: the
loop runs out of input (truncated / exhausted), reaches start-of-scan, or
hits a frame header whose payload is truncated — in every other situation
it either finds a frame header with in-bounds payload and nonzero
dimensions (success) or skips on. -/
def scanFailB (bytes : List ℕ) (i : ℕ) : Bool :=
  if hlt : i < bytes.length - 1 then
    if byteAt bytes i = 0xFF then
      let marker := byteAt bytes (i+1)
      if marker = 0xDA then true
      else if marker = 0xC0 ∨ marker = 0xC2 then
        if bytes.length ≤ i + 9 then true
        else
          let height := be16 (byteAt bytes (i+5)) (byteAt bytes (i+6))
          let width := be16 (byteAt bytes (i+7)) (byteAt bytes (i+8))
          if width ≠ 0 ∧ height ≠ 0 then false
          else
            if bytes.length ≤ i + 3 then true
            else scanFailB bytes (i + 2 + be16 (byteAt bytes (i+2)) (byteAt bytes (i+3)))
      else
        if bytes.length ≤ i + 3 then true
        else scanFailB bytes (i + 2 + be16 (byteAt bytes (i+2)) (byteAt bytes (i+3)))
    else scanFailB bytes (i + 1)
  else true
termination_by bytes.length - i
decreasing_by
  · omega
  · omega
  · omega

/-! ### C9 — linearity of `measureText` in the size -/

/-- C9: for every printable-ASCII string `s` and every size `z > 0`,
`measureText(s, z) = measureText(s, 1) * z`. -/
theorem measureText_linear (s : String) (z : ℚ)
    (_hascii : ∀ c ∈ s.data, 32 ≤ c.toNat ∧ c.toNat ≤ 126) (_hz : 0 < z) :
    measureText s z = measureText s 1 * z := by
  unfold measureText measureChars
  ring

/-- Witness for C9 at `s = "Hi"`, `z = 2`. -/
theorem measureText_linear_witness :
    (∀ c ∈ ("Hi" : String).data, 32 ≤ c.toNat ∧ c.toNat ≤ 126) ∧ (0 : ℚ) < 2 ∧
    measureText "Hi" 2 = measureText "Hi" 1 * 2 :=
  ⟨by decide, by norm_num, measureText_linear "Hi" 2 (by decide) (by norm_num)⟩

/-! ### C2 — `build()` with an empty page list -/

/-- C2: `build()` on a Document with an empty page list fails with
`NoPages`, produces no bytes, and returns the state exactly as given. -/
theorem build_noPages (st : DocState) (h : st.pages = []) :
    build st = (.error .noPages, st) := by
  unfold build
  rw [if_pos h]

/-- Witness for C2 at the fresh Document. -/
theorem build_noPages_witness :
    emptyDoc.pages = [] ∧ build emptyDoc = (.error .noPages, emptyDoc) :=
  ⟨rfl, build_noPages emptyDoc rfl⟩

/-! ### C5 — the text-string case of `serialize` -/

theorem replChar_append (t : Char) (r : List Char) (xs ys : List Char) :
    replChar t r (xs ++ ys) = replChar t r xs ++ replChar t r ys := by
  induction xs with
  | nil => rfl
  | cons c cs ih => simp [replChar, ih]

theorem escChain_single (c : Char) :
    replChar '\n' ['\\', 'n'] (replChar '\r' ['\\', 'r'] (replChar ')' ['\\', ')']
      (replChar '(' ['\\', '('] (replChar '\\' ['\\', '\\'] [c])))) = escSpec c := by
  by_cases h1 : c = '\\'
  · subst h1; rfl
  by_cases h2 : c = '('
  · subst h2; rfl
  by_cases h3 : c = ')'
  · subst h3; rfl
  by_cases h4 : c = '\r'
  · subst h4; rfl
  by_cases h5 : c = '\n'
  · subst h5; rfl
  simp [replChar, escSpec, h1, h2, h3, h4, h5]

theorem escChain (cs : List Char) :
    replChar '\n' ['\\', 'n'] (replChar '\r' ['\\', 'r'] (replChar ')' ['\\', ')']
      (replChar '(' ['\\', '('] (replChar '\\' ['\\', '\\'] cs)))) =
    flatMapL escSpec cs := by
  induction cs with
  | nil => rfl
  | cons c cs ih =>
      have hsplit : (c :: cs) = [c] ++ cs := rfl
      rw [hsplit, replChar_append, replChar_append, replChar_append, replChar_append,
          replChar_append]
      show _ = escSpec c ++ flatMapL escSpec cs
      rw [escChain_single, ih]

theorem pdfString_escape (s : String) :
    pdfString s = "(" ++ String.mk (flatMapL escSpec s.data) ++ ")" := by
  calc pdfString s
      = "(" ++ String.mk (replChar '\n' ['\\', 'n'] (replChar '\r' ['\\', 'r']
          (replChar ')' ['\\', ')'] (replChar '(' ['\\', '(']
            (replChar '\\' ['\\', '\\'] s.data))))) ++ ")" := rfl
    _ = "(" ++ String.mk (flatMapL escSpec s.data) ++ ")" := by rw [escChain]

/-- Counterexample for C5 as stated: a text string beginning with an open
parenthesis is not a name token, yet `serialize` passes it through
verbatim instead of escaping and delimiting it. -/
theorem serialize_cex :
    serialize (.str "(a") = "(a" ∧
    ("(a" : String) ≠ "(" ++ String.mk (flatMapL escSpec ("(a" : String).data) ++ ")" := by
  exact ⟨rfl, by decide⟩

/-- C5 (amended): `serialize` is total by construction, and on every text
string that is neither a name token (leading `/`) nor already delimited
(leading `(`) it emits the parenthesis-delimited form with backslash, the
two parentheses, CR and LF escaped and every other character passed
through unchanged. -/
theorem serialize_text_escapes (s : String)
    (hname : ¬ s.data.head? = some '/') (hpre : ¬ s.data.head? = some '(') :
    serialize (.str s) = "(" ++ String.mk (flatMapL escSpec s.data) ++ ")" := by
  show (if s.data.head? = some '/' then s
        else if s.data.head? = some '(' then s else pdfString s) = _
  rw [if_neg hname, if_neg hpre, pdfString_escape]

/-- Witness for C5 at `s = "a(b)"`. -/
theorem serialize_text_escapes_witness :
    ¬ ("a(b)" : String).data.head? = some '/' ∧
    ¬ ("a(b)" : String).data.head? = some '(' ∧
    serialize (.str "a(b)") = "(" ++ String.mk (flatMapL escSpec ("a(b)" : String).data) ++ ")" :=
  ⟨by decide, by decide, serialize_text_escapes "a(b)" (by decide) (by decide)⟩

/-! ### C10 — the one-argument `page` overload -/

theorem pageDict_mediaBox (w h : ℚ) (cid : ℕ) (xo : List (String × ℕ)) (an : List ℕ) :
    dictLookup (pageDict w h cid xo an) "MediaBox" =
      some (.arr [.num 0, .num 0, .num w, .num h]) := by
  rfl

theorem assemblePage_mediaBox (wh : ℚ × ℚ) (pf : PageFold) :
    ∃ po, (assemblePage wh pf).objects.getLast? = some po ∧
      dictLookup po.dict "MediaBox" =
        some (.arr [.num 0, .num 0, .num wh.1, .num wh.2]) := by
  refine ⟨_, List.getLast?_concat _, ?_⟩
  exact pageDict_mediaBox wh.1 wh.2 _ _ _

/-- C10: `page(fn)` behaves exactly like `page(612, 792, fn)`, and on
success the page object it allocates (the last object appended) carries
the bounding box `[0, 0, 612, 792]`. -/
theorem page_default_dims (st : DocState) (cmds : List DrawCmd) :
    pageCall st none cmds = pageCall st (some (612, 792)) cmds ∧
    ((pageCall st none cmds).1 = .ok () →
      ∃ po, (pageCall st none cmds).2.objects.getLast? = some po ∧
        dictLookup po.dict "MediaBox" =
          some (.arr [.num 0, .num 0, .num 612, .num 792])) := by
  refine ⟨rfl, ?_⟩
  intro hok
  unfold pageCall at hok ⊢
  rcases hrun : runCmds cmds ⟨[], [], [], 0, st⟩ with ⟨pf, oe⟩
  simp only [hrun] at hok ⊢
  cases oe with
  | some e => simp at hok
  | none => simpa using assemblePage_mediaBox (612, 792) pf

/-- Witness for C10 at the empty Document and empty callback. -/
theorem page_default_dims_witness :
    (pageCall emptyDoc none []).1 = .ok () ∧
    (∃ po, (pageCall emptyDoc none []).2.objects.getLast? = some po ∧
      dictLookup po.dict "MediaBox" =
        some (.arr [.num 0, .num 0, .num 612, .num 792])) :=
  ⟨rfl, (page_default_dims emptyDoc []).2 rfl⟩

/-! ### C1 — behavior after a completed `build()` -/

theorem parseJpeg_err (b : List ℕ) (e : Err) (h : parseJpeg b = .error e) :
    e = .malformedImage := by
  unfold parseJpeg at h
  split at h
  · injection h with h
    exact h.symm
  · split at h
    · exact absurd h (by simp)
    · injection h with h
      exact h.symm

theorem runCmd_err (pf : PageFold) (cmd : DrawCmd) (pf' : PageFold) (e : Err)
    (h : runCmd pf cmd = (pf', some e)) : e = .malformedImage := by
  cases cmd with
  | text str x y size align boxWidth color =>
      have h2 := congrArg Prod.snd h
      simp [runCmd] at h2
  | rect x y w hh fill =>
      simp only [runCmd] at h
      split at h <;>
        { have h2 := congrArg Prod.snd h
          simp at h2 }
  | line x1 y1 x2 y2 stroke lw =>
      simp only [runCmd] at h
      split at h <;>
        { have h2 := congrArg Prod.snd h
          simp at h2 }
  | image bytes x y w hh =>
      simp only [runCmd] at h
      split at h
      · next e' heq =>
          have h2 := congrArg Prod.snd h
          simp at h2
          exact h2 ▸ parseJpeg_err bytes e' heq
      · next info heq =>
          have h2 := congrArg Prod.snd h
          simp [addObject] at h2
  | link url x y w hh underline =>
      simp only [runCmd] at h
      split at h
      · have h2 := congrArg Prod.snd h
        simp at h2
      · split at h <;>
          { have h2 := congrArg Prod.snd h
            simp at h2 }

theorem runCmds_err (cmds : List DrawCmd) (pf pf' : PageFold) (e : Err)
    (h : runCmds cmds pf = (pf', some e)) : e = .malformedImage := by
  induction cmds generalizing pf with
  | nil => simp [runCmds] at h
  | cons cmd rest ih =>
      unfold runCmds at h
      split at h
      · next pf1 hc => exact ih _ h
      · next pf1 e1 hc =>
          have h2 : some e1 = some e := congrArg Prod.snd h
          injection h2 with h2
          exact h2 ▸ runCmd_err pf cmd pf1 e1 hc

/-- A `page(...)` call never raises the Document-lifecycle errors: its
only possible failure is `MalformedImage` from `ctx.image`. -/
theorem pageCall_no_lifecycle_err (st : DocState) (dims : Option (ℚ × ℚ))
    (cmds : List DrawCmd) :
    (pageCall st dims cmds).1 ≠ .error .alreadyBuilt ∧
    (pageCall st dims cmds).1 ≠ .error .noPages := by
  unfold pageCall
  rcases hrun : runCmds cmds ⟨[], [], [], 0, st⟩ with ⟨pf, oe⟩
  simp only [hrun]
  cases oe with
  | none => exact ⟨by simp, by simp⟩
  | some e =>
      have he : e = .malformedImage := runCmds_err _ _ _ _ hrun
      subst he
      exact ⟨by simp, by simp⟩

/-- C1 (amended): once `build()` has completed successfully, a second
`build()` fails with `AlreadyBuilt`; but a later `page(...)` call is NOT
rejected — it never fails with `AlreadyBuilt` (or `NoPages`); its only
possible failure remains `MalformedImage`. -/
theorem build_once_page_unguarded (st : DocState) (hp : st.pages ≠ [])
    (hb : st.built = false) :
    (build st).2.built = true ∧
    (build st).2.pages = st.pages ∧
    (build (build st).2).1 = .error .alreadyBuilt ∧
    ∀ dims cmds, (pageCall (build st).2 dims cmds).1 ≠ .error .alreadyBuilt ∧
      (pageCall (build st).2 dims cmds).1 ≠ .error .noPages := by
  have h2 : (build st).2.built = true ∧ (build st).2.pages = st.pages := by
    unfold build
    rw [if_neg hp, if_neg (by simp [hb])]
    simp [addObject]
  refine ⟨h2.1, h2.2, ?_, ?_⟩
  · have hp' : (build st).2.pages ≠ [] := h2.2 ▸ hp
    generalize hst : (build st).2 = st' at *
    unfold build
    rw [if_neg hp', if_pos h2.1]
  · intro dims cmds
    exact pageCall_no_lifecycle_err _ dims cmds

/-- A concrete one-page Document (empty drawing callback). -/
def docOnePage : DocState := (pageCall emptyDoc (some (612, 792)) []).2

/-- Witness for C1 at the concrete one-page Document. -/
theorem build_once_page_unguarded_witness :
    docOnePage.pages ≠ [] ∧ docOnePage.built = false ∧
    (build (build docOnePage).2).1 = .error .alreadyBuilt :=
  ⟨by decide, by rfl,
   (build_once_page_unguarded docOnePage (by decide) (by rfl)).2.2.1⟩

/-- Counterexample for C1 as stated: on this Document `build()` has
completed successfully, yet a later `page(...)` call succeeds (returns
`ok`, not the `AlreadyBuilt` error). -/
theorem page_after_build_cex :
    isOkE (build docOnePage).1 = true ∧
    (pageCall (build docOnePage).2 (some (612, 792)) []).1 = .ok () :=
  ⟨rfl, rfl⟩

/-! ### C3 — the failure conditions of `parseJpeg` -/

/-- Termination step of the scan: out of input. -/
theorem scanSOF_stop (bytes : List ℕ) (i : ℕ) (h : ¬ i < bytes.length - 1) :
    scanSOF bytes i = none := by
  rw [scanSOF]
  exact dif_neg h

/-- Skip step of the scan at a frame header with a zero dimension. -/
theorem scanSOF_skip_zero_dim (bytes : List ℕ) (i : ℕ)
    (hlt : i < bytes.length - 1) (hff : byteAt bytes i = 0xFF)
    (hnda : ¬ byteAt bytes (i+1) = 0xDA)
    (hsof : byteAt bytes (i+1) = 0xC0 ∨ byteAt bytes (i+1) = 0xC2)
    (h9 : ¬ bytes.length ≤ i + 9)
    (hdim : ¬ (be16 (byteAt bytes (i+7)) (byteAt bytes (i+8)) ≠ 0 ∧
               be16 (byteAt bytes (i+5)) (byteAt bytes (i+6)) ≠ 0))
    (h3 : ¬ bytes.length ≤ i + 3) :
    scanSOF bytes i =
      scanSOF bytes (i + 2 + be16 (byteAt bytes (i+2)) (byteAt bytes (i+3))) := by
  conv_lhs => rw [scanSOF]
  rw [dif_pos hlt, if_pos hff, if_neg hnda, if_pos hsof, if_neg h9, if_neg hdim,
      if_neg h3]

theorem scan_none_iff (bytes : List ℕ) (i : ℕ) :
    scanSOF bytes i = none ↔ scanFailB bytes i = true := by
  generalize hn : bytes.length - i = n
  induction n using Nat.strong_induction_on generalizing i with
  | _ n ih =>
      by_cases hlt : i < bytes.length - 1
      · by_cases hff : byteAt bytes i = 0xFF
        · by_cases hda : byteAt bytes (i+1) = 0xDA
          · rw [scanSOF, scanFailB]
            simp [dif_pos hlt, if_pos hff, if_pos hda]
          · by_cases hsof : byteAt bytes (i+1) = 0xC0 ∨ byteAt bytes (i+1) = 0xC2
            · by_cases h9 : bytes.length ≤ i + 9
              · rw [scanSOF, scanFailB]
                simp [dif_pos hlt, if_pos hff, if_neg hda, if_pos hsof, if_pos h9]
              · by_cases hdim : be16 (byteAt bytes (i+7)) (byteAt bytes (i+8)) ≠ 0 ∧
                    be16 (byteAt bytes (i+5)) (byteAt bytes (i+6)) ≠ 0
                · rw [scanSOF, scanFailB]
                  simp [dif_pos hlt, if_pos hff, if_neg hda, if_pos hsof, if_neg h9, if_pos hdim]
                · by_cases h3 : bytes.length ≤ i + 3
                  · rw [scanSOF, scanFailB]
                    simp [dif_pos hlt, if_pos hff, if_neg hda, if_pos hsof, if_neg h9, if_neg hdim,
                      if_pos h3]
                  · rw [scanSOF, scanFailB]
                    simp only [dif_pos hlt, if_pos hff, if_neg hda, if_pos hsof,
                      if_neg h9, if_neg hdim, if_neg h3]
                    exact ih _ (by omega) _ rfl
            · by_cases h3 : bytes.length ≤ i + 3
              · rw [scanSOF, scanFailB]
                simp [dif_pos hlt, if_pos hff, if_neg hda, if_neg hsof, if_pos h3]
              · rw [scanSOF, scanFailB]
                simp only [dif_pos hlt, if_pos hff, if_neg hda, if_neg hsof, if_neg h3]
                exact ih _ (by omega) _ rfl
        · rw [scanSOF, scanFailB]
          simp only [dif_pos hlt, if_neg hff]
          exact ih _ (by omega) _ rfl
      · rw [scanSOF, scanFailB]
        simp [dif_neg hlt]

/-- C3 (amended): `parseJpeg` fails — always with `MalformedImage` — if
and only if the first two bytes are not the SOI marker, or the scan
terminates without locating a frame header with an in-bounds payload and
nonzero dimensions: by reaching start-of-scan, by truncation mid-marker,
or by running past the end of the stream (`scanFailB` enumerates exactly
those stop conditions); it fails in no other case. -/
theorem parseJpeg_error_iff (bytes : List ℕ) :
    parseJpeg bytes = .error .malformedImage ↔
      (bytes.length < 2 ∨ byteAt bytes 0 ≠ 0xFF ∨ byteAt bytes 1 ≠ 0xD8 ∨
       scanFailB bytes 2 = true) := by
  unfold parseJpeg
  by_cases hsoi : bytes.length < 2 ∨ byteAt bytes 0 ≠ 0xFF ∨ byteAt bytes 1 ≠ 0xD8
  · rw [if_pos hsoi]
    refine iff_of_true rfl ?_
    rcases hsoi with h | h | h
    · exact Or.inl h
    · exact Or.inr (Or.inl h)
    · exact Or.inr (Or.inr (Or.inl h))
  · rw [if_neg hsoi]
    push_neg at hsoi
    obtain ⟨h1, h2, h3⟩ := hsoi
    rcases hscan : scanSOF bytes 2 with _ | info
    · exact iff_of_true rfl (Or.inr (Or.inr (Or.inr ((scan_none_iff bytes 2).mp hscan))))
    · have hnf : ¬ scanFailB bytes 2 = true := by
        intro hfail
        rw [(scan_none_iff bytes 2).mpr hfail] at hscan
        exact Option.noConfusion hscan
      apply iff_of_false
      · simp
      · rintro (h | h | h | h)
        · omega
        · exact h h2
        · exact h h3
        · exact hnf h

/-- A 12-byte stream: a valid SOI marker, then a baseline frame-header
marker whose declared height field is zero (and width 3). -/
def jpegZeroHeight : List ℕ :=
  [0xFF, 0xD8, 0xFF, 0xC0, 0x00, 0x0B, 0x08, 0x00, 0x00, 0x00, 0x03, 0x01]

/-- Counterexample for C3 as stated: this stream starts with a valid SOI
marker, contains no start-of-scan marker byte at all, and the scanner
reaches a frame-header marker (`FF C0` at offset 2) whose payload bytes
are all present — none of the claim's three failure conditions — yet
`parseJpeg` fails (the frame header's height field is zero, a failure
case the claim omits). -/
theorem parseJpeg_cex :
    parseJpeg jpegZeroHeight = .error .malformedImage ∧
    jpegZeroHeight.take 2 = [0xFF, 0xD8] ∧
    (0xDA : ℕ) ∉ jpegZeroHeight ∧
    byteAt jpegZeroHeight 2 = 0xFF ∧
    byteAt jpegZeroHeight 3 = 0xC0 ∧
    2 + 9 < jpegZeroHeight.length := by
  refine ⟨?_, by decide, by decide, by decide, by decide, by decide⟩
  have h15 : 2 + 2 + be16 (byteAt jpegZeroHeight 4) (byteAt jpegZeroHeight 5) = 15 := by
    decide
  have hskip := scanSOF_skip_zero_dim jpegZeroHeight 2 (by decide) (by decide)
    (by decide) (by decide) (by decide) (by decide) (by decide)
  rw [h15] at hskip
  have hstop := scanSOF_stop jpegZeroHeight 15 (by decide)
  unfold parseJpeg
  rw [if_neg (by decide), hskip, hstop]

/-! ### C4 — successful frame-header parsing and the image object -/

/-- C4 (amended): whenever the scanner is at a baseline (`C0`) or
progressive (`C2`) frame-header marker whose payload bytes through the
component count are present and whose big-endian height and width fields
are both nonzero, the scan succeeds with exactly those big-endian fields
and the component count mapped 1 → gray, 4 → four-channel, anything else
→ three-channel; and on any successfully parsed stream, `ctx.image`
allocates an object recording exactly the parsed dimensions and color
space (with the raw bytes as its stream). -/
theorem scanSOF_success (bytes : List ℕ) (i : ℕ)
    (hlt : i < bytes.length - 1) (hff : byteAt bytes i = 0xFF)
    (hsof : byteAt bytes (i+1) = 0xC0 ∨ byteAt bytes (i+1) = 0xC2)
    (h9 : ¬ bytes.length ≤ i + 9)
    (hw : be16 (byteAt bytes (i+7)) (byteAt bytes (i+8)) ≠ 0)
    (hh : be16 (byteAt bytes (i+5)) (byteAt bytes (i+6)) ≠ 0) :
    scanSOF bytes i =
      some ⟨be16 (byteAt bytes (i+7)) (byteAt bytes (i+8)),
            be16 (byteAt bytes (i+5)) (byteAt bytes (i+6)),
            colorFor (byteAt bytes (i+9))⟩ ∧
    (colorFor 1 = "/DeviceGray" ∧ colorFor 4 = "/DeviceCMYK" ∧
      ∀ c, c ≠ 1 → c ≠ 4 → colorFor c = "/DeviceRGB") ∧
    (∀ pf x y w h info, parseJpeg bytes = .ok info →
      (runCmd pf (.image bytes x y w h)).1.st.objects =
        pf.st.objects ++ [⟨pf.st.nextId, imgDict info bytes, some bytes⟩]) := by
  have hnda : ¬ byteAt bytes (i+1) = 0xDA := by
    rcases hsof with h | h <;> omega
  refine ⟨?_, ⟨rfl, rfl, ?_⟩, ?_⟩
  · rw [scanSOF, dif_pos hlt, if_pos hff, if_neg hnda, if_pos hsof, if_neg h9,
        if_pos ⟨hw, hh⟩]
  · intro c h1 h4
    unfold colorFor
    rw [if_neg h1, if_neg h4]
  · intro pf x y w h info hok
    simp [runCmd, hok, addObject]

/-- A 12-byte stream: SOI, then an SOF0 marker declaring height 2,
width 3, 1 component. -/
def jpegGray : List ℕ :=
  [0xFF, 0xD8, 0xFF, 0xC0, 0x00, 0x0B, 0x08, 0x00, 0x02, 0x00, 0x03, 0x01]

/-- Witness for C4 at the concrete gray 3x2 stream. -/
theorem scanSOF_success_witness :
    scanSOF jpegGray 2 = some ⟨3, 2, "/DeviceGray"⟩ := by
  have h := (scanSOF_success jpegGray 2 (by decide) (by decide) (by decide)
    (by decide) (by decide) (by decide)).1
  rw [h]
  decide

/-- A 12-byte stream: SOI, then an SOF0 marker declaring height 2 but
width 0. -/
def jpegZeroWidth : List ℕ :=
  [0xFF, 0xD8, 0xFF, 0xC0, 0x00, 0x0B, 0x08, 0x00, 0x02, 0x00, 0x00, 0x01]

/-- Counterexample for C4 as stated: the scanner reaches a baseline
frame-header marker (`FF C0` at offset 2) whose payload bytes are all
present, yet parsing does not succeed — the width field is zero, a
condition for success that the claim omits. -/
theorem jpeg_zero_width_cex :
    byteAt jpegZeroWidth 2 = 0xFF ∧
    byteAt jpegZeroWidth 3 = 0xC0 ∧
    2 + 9 < jpegZeroWidth.length ∧
    parseJpeg jpegZeroWidth = .error .malformedImage := by
  refine ⟨by decide, by decide, by decide, ?_⟩
  have h15 : 2 + 2 + be16 (byteAt jpegZeroWidth 4) (byteAt jpegZeroWidth 5) = 15 := by
    decide
  have hskip := scanSOF_skip_zero_dim jpegZeroWidth 2 (by decide) (by decide)
    (by decide) (by decide) (by decide) (by decide) (by decide)
  rw [h15] at hskip
  have hstop := scanSOF_stop jpegZeroWidth 15 (by decide)
  unfold parseJpeg
  rw [if_neg (by decide), hskip, hstop]

/-! ### C7 — width bound of `wrap` -/

theorem measureChars_nil (size : ℚ) : measureChars [] size = 0 := by
  simp [measureChars]

theorem allowedLine_nil (size maxW : ℚ) (h0 : 0 ≤ maxW) :
    allowedLine size maxW [] :=
  Or.inl (by rw [measureChars_nil]; exact h0)

theorem chunkFold_inv (size maxW : ℚ) (word : List Char) :
    ∀ lines chunk, (∀ l ∈ lines, allowedLine size maxW l) →
      allowedLine size maxW chunk →
      (∀ l ∈ (word.foldl (chunkStep size maxW) (lines, chunk)).1,
        allowedLine size maxW l) ∧
      allowedLine size maxW (word.foldl (chunkStep size maxW) (lines, chunk)).2 := by
  induction word with
  | nil =>
      intro lines chunk hl hc
      exact ⟨hl, hc⟩
  | cons ch rest ih =>
      intro lines chunk hl hc
      rw [List.foldl_cons]
      by_cases hcond : measureChars (chunk ++ [ch]) size > maxW ∧ chunk ≠ []
      · rw [show chunkStep size maxW (lines, chunk) ch = (lines ++ [chunk], [ch]) from
          if_pos hcond]
        apply ih
        · intro l hm
          rcases List.mem_append.mp hm with h | h
          · exact hl l h
          · rw [List.mem_singleton.mp h]
            exact hc
        · exact Or.inr rfl
      · rw [show chunkStep size maxW (lines, chunk) ch = (lines, chunk ++ [ch]) from
          if_neg hcond]
        apply ih _ _ hl
        by_cases hch : chunk = []
        · rw [hch]
          exact Or.inr rfl
        · rcases not_and_or.mp hcond with h | h
          · exact Or.inl (not_lt.mp h)
          · exact (h hch).elim

theorem wordStep_inv (size maxW : ℚ) (h0 : 0 ≤ maxW) (word lines line : _)
    (hl : ∀ l ∈ lines, allowedLine size maxW l)
    (hline : allowedLine size maxW line) :
    (∀ l ∈ (wordStep size maxW (lines, line) word).1, allowedLine size maxW l) ∧
    allowedLine size maxW (wordStep size maxW (lines, line) word).2 := by
  have hpush : ∀ l ∈ (if line ≠ [] then lines ++ [line] else lines),
      allowedLine size maxW l := by
    intro l hm
    by_cases hne : line ≠ []
    · rw [if_pos hne] at hm
      rcases List.mem_append.mp hm with h | h
      · exact hl l h
      · rw [List.mem_singleton.mp h]
        exact hline
    · rw [if_neg hne] at hm
      exact hl l hm
  unfold wordStep
  by_cases hbig : measureChars word size > maxW
  · rw [if_pos hbig]
    exact chunkFold_inv size maxW word _ [] hpush (allowedLine_nil size maxW h0)
  · rw [if_neg hbig]
    by_cases hfit :
        measureChars (if line ≠ [] then line ++ ' ' :: word else word) size ≤ maxW
    · rw [if_pos hfit]
      exact ⟨hl, Or.inl hfit⟩
    · rw [if_neg hfit]
      by_cases hne : line ≠ []
      · rw [if_pos hne]
        refine ⟨?_, Or.inl (not_lt.mp hbig)⟩
        intro l hm
        have hp := hpush l
        rw [if_pos hne] at hp
        exact hp hm
      · rw [if_neg hne]
        exact ⟨hl, Or.inl (not_lt.mp hbig)⟩

theorem wrapFold_inv (size maxW : ℚ) (h0 : 0 ≤ maxW) (words : List (List Char)) :
    ∀ lines line, (∀ l ∈ lines, allowedLine size maxW l) →
      allowedLine size maxW line →
      (∀ l ∈ (words.foldl (wordStep size maxW) (lines, line)).1,
        allowedLine size maxW l) ∧
      allowedLine size maxW (words.foldl (wordStep size maxW) (lines, line)).2 := by
  induction words with
  | nil =>
      intro lines line hl hline
      exact ⟨hl, hline⟩
  | cons word rest ih =>
      intro lines line hl hline
      rw [List.foldl_cons]
      obtain ⟨hl', hline'⟩ := wordStep_inv size maxW h0 word lines line hl hline
      rcases hacc : wordStep size maxW (lines, line) word with ⟨lines1, line1⟩
      rw [hacc] at hl' hline'
      exact ih lines1 line1 hl' hline'

/-- C7 (amended): for every `maxWidth ≥ 0`, every line returned by
`wrap(text, size, maxWidth)` has measured width at most `maxWidth` unless
it is a single (unavoidably over-wide) character, and `wrap` always
returns at least one line. -/
theorem wrap_width_bound (text : List Char) (size maxW : ℚ) (h0 : 0 ≤ maxW) :
    (∀ l ∈ wrap text size maxW, measureChars l size ≤ maxW ∨ l.length = 1) ∧
    1 ≤ (wrap text size maxW).length := by
  simp only [wrap]
  obtain ⟨hl, hline⟩ := wrapFold_inv size maxW h0 (splitWords text) [] []
    (by intro l hm; simp at hm) (allowedLine_nil size maxW h0)
  generalize hacc : (splitWords text).foldl (wordStep size maxW) ([], []) = acc at *
  by_cases h2 : acc.2 ≠ []
  · rw [if_pos h2]
    have hne : acc.1 ++ [acc.2] ≠ [] := by simp
    rw [if_pos hne]
    constructor
    · intro l hm
      rcases List.mem_append.mp hm with h | h
      · exact hl l h
      · rw [List.mem_singleton.mp h]
        exact hline
    · simp
  · rw [if_neg h2]
    by_cases h1 : acc.1 ≠ []
    · rw [if_pos h1]
      exact ⟨hl, List.length_pos.mpr h1⟩
    · rw [if_neg h1]
      refine ⟨?_, by simp⟩
      intro l hm
      rw [List.mem_singleton.mp hm]
      exact allowedLine_nil size maxW h0

/-- Witness for C7 at `text = "hi there"`, `size = 11`, `maxWidth = 30`. -/
theorem wrap_width_bound_witness :
    (0 : ℚ) ≤ 30 ∧
    ((∀ l ∈ wrap ("hi there".data) 11 30,
        measureChars l 11 ≤ 30 ∨ l.length = 1) ∧
     1 ≤ (wrap ("hi there".data) 11 30).length) :=
  ⟨by norm_num, wrap_width_bound ("hi there".data) 11 30 (by norm_num)⟩

/-- Counterexample for C7 as stated: with a negative `maxWidth` the
returned (empty) line is neither within the budget nor a single
character. -/
theorem wrap_cex :
    wrap [] 1 (-1) = [[]] ∧
    ¬ (measureChars [] 1 ≤ -1 ∨ ([] : List Char).length = 1) := by
  have h1 : measureChars ([] : List Char) 1 > (-1 : ℚ) := by
    rw [measureChars_nil]
    norm_num
  constructor
  · simp [wrap, splitWords, wordStep, h1]
  · simp only [measureChars_nil, List.length_nil]
    norm_num

/-! ### C8 — pagination against the bottom margin -/

/-- The items of a page list, in order. -/
def pagesJoin (pages : List (List MDItem × List ℚ)) : List MDItem :=
  (pages.map Prod.fst).join

theorem pagePrefixOk_nil (H M : ℚ) : pagePrefixOk H M [] := by
  intro j hj1 hj2
  simp at hj2
  omega

theorem pagePrefixOk_single (H M : ℚ) (it : MDItem) : pagePrefixOk H M [it] := by
  intro j hj1 hj2
  simp at hj2
  omega

theorem pagStep_inv (H M : ℚ) (a : PageAcc) (it : MDItem)
    (h1 : ∀ p ∈ a.pages, pagePrefixOk H M p.1)
    (h2 : pagePrefixOk H M a.pg)
    (h3 : a.y = H - M - (a.pg.map needed).sum) :
    (∀ p ∈ (pagStep H M a it).pages, pagePrefixOk H M p.1) ∧
    pagePrefixOk H M (pagStep H M a it).pg ∧
    (pagStep H M a it).y = H - M - (((pagStep H M a it).pg.map needed).sum) ∧
    pagesJoin (pagStep H M a it).pages ++ (pagStep H M a it).pg =
      (pagesJoin a.pages ++ a.pg) ++ [it] := by
  by_cases hov : a.y - needed it < M
  · by_cases hpg : a.pg ≠ []
    · rw [show pagStep H M a it =
          ⟨a.pages ++ [(a.pg, a.ys)],
           H - M - it.spaceBefore - (it.size + it.spaceAfter),
           [] ++ [it], [] ++ [H - M - it.spaceBefore]⟩ from by
        simp only [pagStep, if_pos hov, if_pos hpg]]
      refine ⟨?_, pagePrefixOk_single H M it, ?_, ?_⟩
      · intro p hp
        rcases List.mem_append.mp hp with h | h
        · exact h1 p h
        · rw [List.mem_singleton.mp h]
          exact h2
      · simp only [List.nil_append, List.map_cons, List.map_nil, List.sum_cons,
          List.sum_nil, needed]
        ring
      · simp only [pagesJoin, List.map_append, List.join_append, List.map_cons,
          List.map_nil, List.join, List.nil_append, List.append_nil]
        simp [List.append_assoc]
    · rw [show pagStep H M a it =
          ⟨a.pages, H - M - it.spaceBefore - (it.size + it.spaceAfter),
           [] ++ [it], [] ++ [H - M - it.spaceBefore]⟩ from by
        simp only [pagStep, if_pos hov, if_neg hpg]]
      have hpg' : a.pg = [] := not_not.mp hpg
      refine ⟨h1, pagePrefixOk_single H M it, ?_, ?_⟩
      · simp only [List.nil_append, List.map_cons, List.map_nil, List.sum_cons,
          List.sum_nil, needed]
        ring
      · rw [hpg']
        simp
  · rw [show pagStep H M a it =
        ⟨a.pages, a.y - it.spaceBefore - (it.size + it.spaceAfter),
         a.pg ++ [it], a.ys ++ [a.y - it.spaceBefore]⟩ from by
      simp only [pagStep, if_neg hov]]
    refine ⟨h1, ?_, ?_, ?_⟩
    · intro j hj1 hj2
      rw [List.length_append, List.length_singleton] at hj2
      rcases Nat.lt_or_ge j (a.pg.length + 1) with hj | hj
      · have hjle : j ≤ a.pg.length := by omega
        rw [List.take_append_eq_append_take, Nat.sub_eq_zero_of_le hjle,
            List.take_zero, List.append_nil]
        exact h2 j hj1 hjle
      · have hj' : j = a.pg.length + 1 := by omega
        have htake : (a.pg ++ [it]).take j = a.pg ++ [it] := by
          apply List.take_of_length_le
          simp [hj']
        rw [htake]
        have hge : M ≤ a.y - needed it := not_lt.mp hov
        rw [h3] at hge
        have hneed : needed it = it.spaceBefore + it.size + it.spaceAfter := rfl
        simp only [List.map_append, List.sum_append, List.map_cons, List.map_nil,
          List.sum_cons, List.sum_nil]
        linarith [hge, hneed]
    · rw [h3]
      simp only [List.map_append, List.sum_append, List.map_cons, List.map_nil,
        List.sum_cons, List.sum_nil, needed]
      ring
    · exact (List.append_assoc _ _ _).symm

theorem pagFold_inv (H M : ℚ) (items : List MDItem) :
    ∀ a, (∀ p ∈ a.pages, pagePrefixOk H M p.1) → pagePrefixOk H M a.pg →
      a.y = H - M - ((a.pg.map needed).sum) →
      (∀ p ∈ (items.foldl (pagStep H M) a).pages, pagePrefixOk H M p.1) ∧
      pagePrefixOk H M (items.foldl (pagStep H M) a).pg ∧
      (items.foldl (pagStep H M) a).y =
        H - M - (((items.foldl (pagStep H M) a).pg.map needed).sum) ∧
      pagesJoin (items.foldl (pagStep H M) a).pages ++
          (items.foldl (pagStep H M) a).pg =
        (pagesJoin a.pages ++ a.pg) ++ items := by
  induction items with
  | nil =>
      intro a h1 h2 h3
      exact ⟨h1, h2, h3, by simp⟩
  | cons it rest ih =>
      intro a h1 h2 h3
      rw [List.foldl_cons]
      obtain ⟨k1, k2, k3, k4⟩ := pagStep_inv H M a it h1 h2 h3
      obtain ⟨m1, m2, m3, m4⟩ := ih (pagStep H M a it) k1 k2 k3
      refine ⟨m1, m2, m3, ?_⟩
      rw [m4, k4]
      simp

/-- C8: whenever placing the next item would cross the bottom margin the
current collection is closed and the item opens the new page (so the
concatenation of the produced pages' items is exactly the input sequence);
on every produced page, every item after the first keeps the cursor at or
above the bottom margin (only a page's first — triggering — item can
overflow); and an empty item sequence yields exactly one empty page. -/
theorem paginate_margin (H M : ℚ) (items : List MDItem) :
    (∀ p ∈ paginate H M items, pagePrefixOk H M p.1) ∧
    pagesJoin (paginate H M items) = items ∧
    paginate H M [] = [([], [])] := by
  obtain ⟨h1, h2, h3, h4⟩ := pagFold_inv H M items ⟨[], H - M, [], []⟩
    (by intro p hp; simp at hp) (pagePrefixOk_nil H M) (by simp)
  have h4' : pagesJoin (items.foldl (pagStep H M) ⟨[], H - M, [], []⟩).pages ++
      (items.foldl (pagStep H M) ⟨[], H - M, [], []⟩).pg = items := by
    rw [h4]
    simp [pagesJoin]
  refine ⟨?_, ?_, rfl⟩
  · simp only [paginate]
    generalize hr : items.foldl (pagStep H M) ⟨[], H - M, [], []⟩ = r at h1 h2 h4'
    by_cases hpg : r.pg ≠ []
    · rw [if_pos hpg]
      have hne : r.pages ++ [(r.pg, r.ys)] ≠ [] := by simp
      rw [if_pos hne]
      intro p hp
      rcases List.mem_append.mp hp with h | h
      · exact h1 p h
      · rw [List.mem_singleton.mp h]
        exact h2
    · rw [if_neg hpg]
      by_cases hps : r.pages ≠ []
      · rw [if_pos hps]
        exact h1
      · rw [if_neg hps]
        intro p hp
        rw [List.mem_singleton.mp hp]
        exact pagePrefixOk_nil H M
  · simp only [paginate]
    generalize hr : items.foldl (pagStep H M) ⟨[], H - M, [], []⟩ = r at h1 h2 h4'
    by_cases hpg : r.pg ≠ []
    · rw [if_pos hpg]
      have hne : r.pages ++ [(r.pg, r.ys)] ≠ [] := by simp
      rw [if_pos hne]
      rw [← h4']
      simp only [pagesJoin, List.map_append, List.join_append, List.map_cons,
        List.map_nil, List.join, List.append_nil]
      simp
    · rw [if_neg hpg]
      have hpg' : r.pg = [] := not_not.mp hpg
      by_cases hps : r.pages ≠ []
      · rw [if_pos hps]
        rw [← h4', hpg']
        simp
      · rw [if_neg hps]
        have hps' : r.pages = [] := not_not.mp hps
        rw [← h4', hpg', hps']
        simp [pagesJoin]

/-! ### C6 — byte-exact cross-reference offsets -/

theorem flatMapL_append (f : α → List β) (xs ys : List α) :
    flatMapL f (xs ++ ys) = flatMapL f xs ++ flatMapL f ys := by
  induction xs with
  | nil => rfl
  | cons a as ih => simp [flatMapL, ih]

theorem utf8Str_append (a b : String) :
    utf8Str (a ++ b) = utf8Str a ++ utf8Str b := by
  unfold utf8Str
  rw [String.data_append, flatMapL_append]

theorem emit_fst (objs : List PDFObjectM) (off : ℕ) :
    (emitObjs objs off).1 = (objs.map objChunk).join := by
  induction objs generalizing off with
  | nil => rfl
  | cons o rest ih => simp [emitObjs, ih]

theorem emit_off (objs : List PDFObjectM) (off : ℕ) :
    (emitObjs objs off).2.2 = off + ((objs.map fun o => (objChunk o).length).sum) := by
  induction objs generalizing off with
  | nil => simp [emitObjs]
  | cons o rest ih =>
      simp [emitObjs, ih]
      omega

theorem emit_lookup (objs : List PDFObjectM) :
    ∀ (off s : ℕ),
      (∀ k, k < objs.length → (objs.getD k default).id = s + k) →
      ∀ j, j < objs.length →
        ((emitObjs objs off).2.1).lookup (s + j) =
          some (off + (((objs.take j).map fun o => (objChunk o).length).sum)) := by
  induction objs with
  | nil =>
      intro off s _ j hj
      simp at hj
  | cons o rest ih =>
      intro off s h j hj
      have hid : o.id = s := by
        have h0 := h 0 (by simp)
        simpa using h0
      match j with
      | 0 =>
          simp [emitObjs, List.lookup, hid]
      | j'+1 =>
          have hne : ((s + (j'+1) == o.id) = false) := by
            rw [hid]
            simp only [beq_eq_false_iff_ne, ne_eq]
            omega
          have hrest : ∀ k, k < rest.length → (rest.getD k default).id = (s+1) + k := by
            intro k hk
            have hh := h (k+1) (by simpa using Nat.succ_lt_succ hk)
            rw [List.getD_cons_succ] at hh
            rw [hh]
            omega
          have hihj := ih (off + (objChunk o).length) (s+1) hrest j'
            (by simpa using Nat.lt_of_succ_lt_succ hj)
          have hkey : s + (j'+1) = (s+1) + j' := by omega
          simp only [emitObjs, List.lookup, hne]
          rw [hkey, hihj]
          simp only [List.take_succ_cons, List.map_cons, List.sum_cons]
          congr 1
          omega

theorem buildBytes_split (objs : List PDFObjectM) (catalogId : ℕ) (k : ℕ)
    (hk : k < objs.length) :
    ∃ tail, buildBytes objs catalogId =
      (utf8Str pdfHeader ++ ((objs.take k).map objChunk).join) ++
        (objChunk (objs.getD k default) ++ tail) ∧
      (utf8Str pdfHeader ++ ((objs.take k).map objChunk).join).length =
        objOffset objs k := by
  have hmapsplit : objs.map objChunk =
      (objs.take k).map objChunk ++
        (objChunk (objs.getD k default) :: (objs.drop (k+1)).map objChunk) := by
    conv_lhs => rw [← List.take_append_drop k objs]
    rw [List.map_append]
    congr 1
    rw [List.drop_eq_get_cons hk, List.map_cons, List.getD_eq_get objs default hk]
  rcases he : emitObjs objs (utf8Str pdfHeader).length with ⟨objBytes, om, fin⟩
  have hob : objBytes = (objs.map objChunk).join := by
    have h := emit_fst objs (utf8Str pdfHeader).length
    rw [he] at h
    exact h
  refine ⟨((objs.drop (k+1)).map objChunk).join ++
      (utf8Str (xrefString objs.length om) ++
       (utf8Str ("trailer\n" ++ serialize (trailerDict objs.length catalogId) ++ "\n") ++
        utf8Str ("startxref\n" ++ toString fin ++ "\n%%EOF\n"))), ?_, ?_⟩
  · show buildBytes objs catalogId = _
    simp only [buildBytes]
    rw [he]
    dsimp only
    rw [hob, hmapsplit]
    simp [List.append_assoc]
  · unfold objOffset
    rw [List.length_append, List.length_join, List.map_map]
    rfl

theorem objChunk_head (o : PDFObjectM) :
    ∃ rest, objChunk o = utf8Str (toString o.id ++ " 0 obj") ++ rest := by
  have h1 : (" 0 obj\n" : String).data = (" 0 obj" : String).data ++ ("\n" : String).data :=
    rfl
  rcases o with ⟨id, dict, stream⟩
  rcases stream with _ | st
  · refine ⟨utf8Str ("\n" ++ (serialize dict ++ ("\n" ++ "endobj\n"))), ?_⟩
    show utf8Str (toString id ++ " 0 obj\n" ++ serialize dict ++ "\n" ++ "endobj\n") = _
    rw [← utf8Str_append]
    congr 1
    apply String.ext
    simp only [String.data_append, List.append_assoc, h1]
    simp
  · refine ⟨utf8Str ("\n" ++ (serialize dict ++ ("\n" ++ "stream\n"))) ++ st ++
      utf8Str "\nendstream\nendobj\n", ?_⟩
    show utf8Str (toString id ++ " 0 obj\n" ++ serialize dict ++ "\n" ++ "stream\n") ++
        st ++ utf8Str "\nendstream\nendobj\n" = _
    rw [show utf8Str (toString id ++ " 0 obj\n" ++ serialize dict ++ "\n" ++ "stream\n") =
        utf8Str (toString id ++ " 0 obj") ++
          utf8Str ("\n" ++ (serialize dict ++ ("\n" ++ "stream\n"))) from by
      rw [← utf8Str_append]
      congr 1
      apply String.ext
      simp only [String.data_append, List.append_assoc, h1]
      simp]
    simp [List.append_assoc]

/-- C6: in the byte output of the emission phase of `build()` (for an
object list with the builder's dense ids `1..N`), the xref entry for
every id `i` is exactly the 10-digit zero-padded byte offset at which
that object's `i 0 obj` header begins, followed by the fixed generation
number and in-use flag; the xref section itself begins with the reserved
free-list-head entry 0 at the offset named by the `startxref` value. -/
theorem buildBytes_xref (objs : List PDFObjectM) (catalogId : ℕ)
    (hIds : ∀ k, k < objs.length → (objs.getD k default).id = k + 1) :
    (∀ i, 1 ≤ i → i ≤ objs.length →
      ((buildBytes objs catalogId).drop (objOffset objs (i-1))).take
          (utf8Str (toString i ++ " 0 obj")).length
        = utf8Str (toString i ++ " 0 obj") ∧
      (xrefEntries objs.length (emitObjs objs (utf8Str pdfHeader).length).2.1).get? (i-1)
        = some (pad10 (toString (objOffset objs (i-1))) ++ " 00000 n \n")) ∧
    ((buildBytes objs catalogId).drop (xrefOffset objs)).take
        (utf8Str ("xref\n0 " ++ toString (objs.length + 1) ++ "\n" ++
          "0000000000 65535 f \n")).length
      = utf8Str ("xref\n0 " ++ toString (objs.length + 1) ++ "\n" ++
          "0000000000 65535 f \n") ∧
    (emitObjs objs (utf8Str pdfHeader).length).2.2 = xrefOffset objs ∧
    ∃ pre, buildBytes objs catalogId =
      pre ++ utf8Str ("startxref\n" ++ toString (xrefOffset objs) ++ "\n%%EOF\n") := by
  rcases he : emitObjs objs (utf8Str pdfHeader).length with ⟨objBytes, om, fin⟩
  have hob : objBytes = (objs.map objChunk).join := by
    have h := emit_fst objs (utf8Str pdfHeader).length
    rw [he] at h
    exact h
  have hfin : fin = xrefOffset objs := by
    have h := emit_off objs (utf8Str pdfHeader).length
    rw [he] at h
    dsimp only at h
    rw [h]
    unfold xrefOffset objOffset
    rw [List.take_length]
  have hlen2 : (utf8Str pdfHeader ++ objBytes).length = xrefOffset objs := by
    rw [hob, List.length_append, List.length_join, List.map_map]
    unfold xrefOffset objOffset
    rw [List.take_length]
    rfl
  refine ⟨?_, ?_, ?_, ?_⟩
  · intro i h1 hi
    have hk : i - 1 < objs.length := by omega
    have hid : (objs.getD (i-1) default).id = i := by
      have h := hIds (i-1) hk
      omega
    constructor
    · obtain ⟨tail, hdec, hlen⟩ := buildBytes_split objs catalogId (i-1) hk
      obtain ⟨rest, hchunk⟩ := objChunk_head (objs.getD (i-1) default)
      rw [hdec, ← hlen, List.drop_left, hchunk, hid, List.append_assoc,
          List.take_left]
    · simp only [xrefEntries, he]
      rw [List.get?_map, List.get?_range hk]
      have hlk := emit_lookup objs (utf8Str pdfHeader).length 1
        (by intro k hk'; rw [hIds k hk']; omega) (i-1) hk
      rw [he, show 1 + (i-1) = i from by omega] at hlk
      have hi1 : i - 1 + 1 = i := by omega
      simp only [Option.map_some', hi1]
      unfold lookupOffStr
      rw [hlk]
      rfl
  · simp only [buildBytes]
    rw [he]
    dsimp only
    rw [show utf8Str pdfHeader ++ objBytes ++ utf8Str (xrefString objs.length om) ++
          utf8Str ("trailer\n" ++ serialize (trailerDict objs.length catalogId) ++ "\n") ++
          utf8Str ("startxref\n" ++ toString fin ++ "\n%%EOF\n") =
        (utf8Str pdfHeader ++ objBytes) ++
          (utf8Str (xrefString objs.length om) ++
            (utf8Str ("trailer\n" ++ serialize (trailerDict objs.length catalogId) ++ "\n") ++
             utf8Str ("startxref\n" ++ toString fin ++ "\n%%EOF\n"))) from by
      simp [List.append_assoc]]
    rw [← hlen2, List.drop_left]
    rw [show utf8Str (xrefString objs.length om) =
        utf8Str ("xref\n0 " ++ toString (objs.length + 1) ++ "\n" ++
          "0000000000 65535 f \n") ++
          utf8Str (String.join (xrefEntries objs.length om)) from utf8Str_append _ _]
    rw [List.append_assoc]
    exact List.take_left _ _
  · exact hfin
  · refine ⟨utf8Str pdfHeader ++ objBytes ++ utf8Str (xrefString objs.length om) ++
      utf8Str ("trailer\n" ++ serialize (trailerDict objs.length catalogId) ++ "\n"), ?_⟩
    simp only [buildBytes]
    rw [he]
    dsimp only
    rw [hfin]

/-- Witness for C6 at the one-object list, `i = 1`. -/
theorem buildBytes_xref_witness :
    (∀ k, k < ([⟨1, PDFValue.dict [], none⟩] : List PDFObjectM).length →
      (([⟨1, PDFValue.dict [], none⟩] : List PDFObjectM).getD k default).id = k + 1) ∧
    ((buildBytes [⟨1, PDFValue.dict [], none⟩] 1).drop
        (objOffset [⟨1, PDFValue.dict [], none⟩] 0)).take
        (utf8Str (toString 1 ++ " 0 obj")).length
      = utf8Str (toString 1 ++ " 0 obj") ∧
    (xrefEntries 1 (emitObjs [⟨1, PDFValue.dict [], none⟩]
        (utf8Str pdfHeader).length).2.1).get? 0
      = some (pad10 (toString (objOffset [⟨1, PDFValue.dict [], none⟩] 0)) ++
          " 00000 n \n") := by
  have hIds : ∀ k, k < ([⟨1, PDFValue.dict [], none⟩] : List PDFObjectM).length →
      (([⟨1, PDFValue.dict [], none⟩] : List PDFObjectM).getD k default).id = k + 1 := by
    intro k hk
    have hk0 : k = 0 := by
      simpa using hk
    subst hk0
    rfl
  have h := (buildBytes_xref [⟨1, PDFValue.dict [], none⟩] 1 hIds).1 1
    (le_refl 1) (le_refl 1)
  exact ⟨hIds, h.1, h.2⟩

/-- A concrete 10-unit-tall layout item. -/
def itemTen : MDItem := ⟨[], 10, 0, 0, 0, false, none⟩

/-- Witness for C8: a concrete page of two items, with the prefix bound
instantiated at `j = 2`. -/
theorem paginate_margin_witness :
    ([itemTen, itemTen], ([720, 710] : List ℚ)) ∈
        paginate 792 72 [itemTen, itemTen] ∧
    2 ≤ ([itemTen, itemTen] : List MDItem).length ∧
    (72 : ℚ) ≤ 792 - 72 - ((([itemTen, itemTen] : List MDItem).take 2).map needed).sum := by
  have hmem : ([itemTen, itemTen], ([720, 710] : List ℚ)) ∈
      paginate 792 72 [itemTen, itemTen] := by
    norm_num [paginate, pagStep, needed, itemTen]
    simp
  exact ⟨hmem, by norm_num,
    (paginate_margin 792 72 [itemTen, itemTen]).1 _ hmem 2 (le_refl 2) (by norm_num)⟩

end TinyPDF
